import Mathlib

/-
  Verification of the SoapESP32 UPnP/DLNA client protocol engine.

  The repository ships the interface `src/SoapESP32.h`: enums, structs and
  the protocol string constants are embedded here directly from that header.
  The method bodies are not part of the repository snapshot, so each
  behavioural definition below is modelled from the specification text
  (sections 4.2-4.6 of the design document) and marked as such in its
  doc comment.

  Bytes on the wire are modelled as `Char` (the code works on `char`);
  a numeric character reference is truncated to one byte with `% 256`,
  exactly as an 8-bit `char` store would.
-/

namespace SoapESP32

/-! ## Basic characters and numerals -/

/-- The double-quote character `"`. -/
def quoteChar : Char := Char.ofNat 34

/-- The apostrophe character. -/
def aposChar : Char := Char.ofNat 39

/-- Carriage return. -/
def crChar : Char := Char.ofNat 13

/-- Line feed. -/
def lfChar : Char := Char.ofNat 10

/-- The space character. -/
def spaceChar : Char := Char.ofNat 32

/-- Value of a decimal digit list, most significant first (as an
accumulating scan over the characters would compute it). -/
def digitsToNat (ds : List Char) : Nat :=
  ds.foldl (fun a c => a * 10 + (c.toNat - 48)) 0

/-- Decimal parse of the leading digit run of a string (attribute values
such as `childCount="12"` arrive as text). -/
def parseDec (s : List Char) : Nat :=
  digitsToNat (s.takeWhile Char.isDigit)

/-! ## Entity replacement machinery (header: `eXmlReplaceState`,
`m_xmlReplaceState`, `m_xmlReplaceBuffer[15]`, `replaceWith_t`) -/

/-- State enum from the header: `enum eXmlReplaceState { xmlPassthrough = 0,
xmlAmpDetected, xmlTakeFromBuffer }`. -/
inductive eXmlReplaceState
  | xmlPassthrough
  | xmlAmpDetected
  | xmlTakeFromBuffer
  deriving DecidableEq

/-- Capacity of `m_xmlReplaceBuffer[15]` from the header: the lookahead
buffer holds at most 15 bytes. -/
def xmlReplaceBufferSize : Nat := 15

/-- Modelled from the spec: recognition of a numeric character reference
`&#NNN;` (at least one decimal digit between `&#` and `;`); the decoded
codepoint is truncated to one byte. -/
def matchNumericEntity (buf : List Char) : Option Char :=
  if buf.take 2 = ['&', '#'] ∧ buf.getLast? = some ';' ∧
     (buf.drop 2).dropLast ≠ [] ∧ ((buf.drop 2).dropLast).all Char.isDigit = true
  then some (Char.ofNat (digitsToNat ((buf.drop 2).dropLast) % 256))
  else none

/-- Modelled from the spec: the `replaceWith[]` table lookup — a buffered
token resolves to exactly one replacement byte when it is one of the five
named entities or a numeric `&#NNN;` reference. -/
def lookupEntity (buf : List Char) : Option Char :=
  if buf = ("&amp;").toList then some '&'
  else if buf = ("&lt;").toList then some '<'
  else if buf = ("&gt;").toList then some '>'
  else if buf = ("&quot;").toList then some quoteChar
  else if buf = ("&apos;").toList then some aposChar
  else matchNumericEntity buf

/-- Modelled from the spec: the entity state machine over a whole byte
stream. `none` is the `xmlPassthrough` state, `some buf` is the buffering
state (`xmlAmpDetected`) holding the pending bytes since the `&`.
On a full match one replacement byte is emitted and the buffer discarded;
on `;` with no match or on buffer overflow the buffered bytes are emitted
verbatim and the machine resumes passthrough. -/
def soapDecodeEntitiesAux : Option (List Char) → List Char → List Char
  | none, [] => []
  | some _, [] => []
  | none, c :: rest =>
      if c = '&' then soapDecodeEntitiesAux (some [c]) rest
      else c :: soapDecodeEntitiesAux none rest
  | some buf, c :: rest =>
      match lookupEntity (buf ++ [c]) with
      | some r => r :: soapDecodeEntitiesAux none rest
      | none =>
          if c = ';' ∨ xmlReplaceBufferSize ≤ (buf ++ [c]).length
          then (buf ++ [c]) ++ soapDecodeEntitiesAux none rest
          else soapDecodeEntitiesAux (some (buf ++ [c])) rest

/-- Modelled from the spec: the full entity decode of a byte stream,
starting in `xmlPassthrough`. -/
def soapDecodeEntities (input : List Char) : List Char :=
  soapDecodeEntitiesAux none input

/-- Modelled from the spec: the XML escaping inverted by the decoder —
each of the five reserved bytes becomes its named entity, every other
byte stands for itself. -/
def xmlEncodeChar (c : Char) : List Char :=
  if c = '&' then ("&amp;").toList
  else if c = '<' then ("&lt;").toList
  else if c = '>' then ("&gt;").toList
  else if c = quoteChar then ("&quot;").toList
  else if c = aposChar then ("&apos;").toList
  else [c]

/-- Modelled from the spec: escaping of a whole string. -/
def xmlEncode (s : List Char) : List Char :=
  (s.map xmlEncodeChar).flatten

/-- Cross-call decoder state from the header: `m_xmlReplaceState`,
`m_xmlReplaceBuffer` and `m_xmlReplaceOffset` (the replay read position). -/
structure xmlReplaceCtx where
  state : eXmlReplaceState
  buffer : List Char
  offset : Nat
  deriving DecidableEq

/-- Modelled from the spec: one `nextByte()` call at the entity layer.
Given the machine state and the remaining raw input, it returns the byte
emitted by this call (`none` = suspension: the caller must call again),
the successor state and the input left unconsumed.
In `xmlPassthrough` a non-`&` byte is emitted as-is and `&` is buffered
with no emission; in `xmlAmpDetected` a full entity match emits its one
replacement byte and discards the buffer, while `;` with no match or
buffer overflow starts replaying the buffered bytes verbatim one per
call (`xmlTakeFromBuffer`, consuming no input) until the machine resumes
`xmlPassthrough`. -/
def xmlReplaceCall (ctx : xmlReplaceCtx) (input : List Char) :
    Option Char × xmlReplaceCtx × List Char :=
  match ctx.state with
  | .xmlTakeFromBuffer =>
      match ctx.buffer.drop ctx.offset with
      | [] => (none, ⟨.xmlPassthrough, [], 0⟩, input)
      | c :: cs =>
          if cs = []
          then (some c, ⟨.xmlPassthrough, [], 0⟩, input)
          else (some c, ⟨.xmlTakeFromBuffer, ctx.buffer, ctx.offset + 1⟩, input)
  | .xmlPassthrough =>
      match input with
      | [] => (none, ctx, [])
      | c :: rest =>
          if c = '&'
          then (none, ⟨.xmlAmpDetected, [c], 0⟩, rest)
          else (some c, ctx, rest)
  | .xmlAmpDetected =>
      match input with
      | [] => (none, ctx, [])
      | c :: rest =>
          match lookupEntity (ctx.buffer ++ [c]) with
          | some r => (some r, ⟨.xmlPassthrough, [], 0⟩, rest)
          | none =>
              if c = ';' ∨ xmlReplaceBufferSize ≤ (ctx.buffer ++ [c]).length
              then ((ctx.buffer ++ [c]).head?,
                    ⟨.xmlTakeFromBuffer, ctx.buffer ++ [c], 1⟩, rest)
              else (none, ⟨.xmlAmpDetected, ctx.buffer ++ [c], 0⟩, rest)

/-- Repeated `nextByte()` calls at the entity layer until end of stream
(fuel bounds the number of calls; `2 * input.length + 1` calls always
suffice from the initial state). The machine stops when the input is
exhausted and no replay is pending. -/
def xmlReplaceRun : Nat → xmlReplaceCtx → List Char → List Char
  | 0, _, _ => []
  | fuel + 1, ctx, input =>
      if ctx.state ≠ eXmlReplaceState.xmlTakeFromBuffer ∧ input = []
      then []
      else
        ((xmlReplaceCall ctx input).1).toList ++
          xmlReplaceRun fuel (xmlReplaceCall ctx input).2.1
            (xmlReplaceCall ctx input).2.2

/-! ## Chunked transfer decoding (header: `m_xmlChunkCount`, `soapReadXML`) -/

/-- Hexadecimal value of one character, `none` when it is not a hex digit. -/
def hexDigitVal (c : Char) : Option Nat :=
  if '0' ≤ c ∧ c ≤ '9' then some (c.toNat - 48)
  else if 'a' ≤ c ∧ c ≤ 'f' then some (c.toNat - 97 + 10)
  else if 'A' ≤ c ∧ c ≤ 'F' then some (c.toNat - 65 + 10)
  else none

/-- Modelled from the spec: parse one chunk-size line — hex digits up to
CRLF — accumulating into `acc`; returns the size and the rest of the
stream after the line, `none` on malformed input. -/
def parseChunkSizeLine : List Char → Nat → Option (Nat × List Char)
  | [], _ => none
  | c :: rest, acc =>
      match hexDigitVal c with
      | some d => parseChunkSizeLine rest (acc * 16 + d)
      | none =>
          if c = crChar then
            match rest with
            | c' :: rest' => if c' = lfChar then some (acc, rest') else none
            | [] => none
          else none

/-- Modelled from the spec: one round of the de-chunking loop of
`soapReadXML` — parse one chunk-size line; a size of `0` is the terminal
chunk and must be followed by the final CRLF at end of stream, a
positive size takes that many payload bytes, their trailing CRLF, and
continues with `rec` on the remainder. -/
def dechunkStep (rec : List Char → Option (List Char)) (s : List Char) :
    Option (List Char) :=
  match parseChunkSizeLine s 0 with
  | none => none
  | some (0, rest) =>
      if rest = [crChar, lfChar] then some [] else none
  | some (n + 1, rest) =>
      if (rest.drop (n + 1)).take 2 = [crChar, lfChar] ∧ n + 3 ≤ rest.length
      then match rec (rest.drop (n + 3)) with
           | some tail => some (rest.take (n + 1) ++ tail)
           | none => none
      else none

/-- Modelled from the spec: the de-chunking loop of `soapReadXML` driven
to end of stream, with fuel for termination. Chunk-size line, CRLF,
chunk bytes, CRLF, repeated until the terminal zero-size chunk. -/
def dechunkAux : Nat → List Char → Option (List Char)
  | 0, _ => none
  | fuel + 1, s => dechunkStep (dechunkAux fuel) s

/-- Modelled from the spec: complete de-chunking of a wire stream. -/
def dechunk (s : List Char) : Option (List Char) :=
  dechunkAux (s.length + 1) s

/-- Minimal hex digit character (lower case letters), for the reference
chunk encoder. -/
def hexDigitChar (n : Nat) : Char :=
  if n < 10 then Char.ofNat (48 + n) else Char.ofNat (97 + n - 10)

/-- Hex digit values of a number, most significant first (empty for 0). -/
def hexDigits (n : Nat) : List Nat :=
  if h : n = 0 then []
  else hexDigits (n / 16) ++ [n % 16]
  decreasing_by exact Nat.div_lt_self (Nat.pos_of_ne_zero h) (by decide)

/-- Hexadecimal rendering of a chunk size. -/
def toHex (n : Nat) : List Char :=
  if n = 0 then ['0'] else (hexDigits n).map hexDigitChar

/-- Reference encoder for one chunk: hex size line, CRLF, payload, CRLF. -/
def encodeChunk (payload : List Char) : List Char :=
  toHex payload.length ++ crChar :: lfChar :: (payload ++ [crChar, lfChar])

/-- Reference encoder for a whole chunked body, ending with the terminal
zero-size chunk `0\r\n\r\n`. -/
def encodeChunked (chunks : List (List Char)) : List Char :=
  (chunks.map encodeChunk).flatten ++ ['0', crChar, lfChar, crChar, lfChar]

/-- Reference de-chunker from the spec's words: the unchunked equivalent
body is simply the concatenation of the chunk payloads. -/
def referenceDechunk (chunks : List (List Char)) : List Char :=
  chunks.flatten

/-- Modelled from the spec: `soapReadXML(chunked, replace)` pulled to end
of stream — the chunked-transfer unwrap composed with the entity decode,
each layer switched by its flag. `none` is a protocol error. -/
def soapReadXMLStream (chunked replace : Bool) (wire : List Char) :
    Option (List Char) :=
  match (if chunked then dechunk wire else some wire) with
  | none => none
  | some body => some (if replace then soapDecodeEntities body else body)

/-! ## Entity model (header: `eFileType`, `soapObject_t`, `soapServer_t`) -/

/-- File-type enum from the header. -/
inductive eFileType
  | fileTypeOther
  | fileTypeAudio
  | fileTypeImage
  | fileTypeVideo
  deriving DecidableEq

/-- Content entry from the header (`soapObject_t`): one DIDL `<container>`
or `<item>`. Strings are byte lists, the IP address a number. -/
structure soapObject_t where
  isDirectory : Bool := false
  size : Nat := 0
  sizeMissing : Bool := false
  bitrate : Nat := 0
  sampleFrequency : Nat := 0
  searchable : Bool := false
  fileType : eFileType := .fileTypeOther
  parentId : List Char := []
  id : List Char := []
  name : List Char := []
  artist : List Char := []
  album : List Char := []
  uri : List Char := []
  downloadIp : Nat := 0
  downloadPort : Nat := 0
  albumArtUri : List Char := []
  iconUri : List Char := []
  deriving DecidableEq

/-- Media-server record from the header (`soapServer_t`). -/
structure soapServer_t where
  ip : Nat
  port : Nat
  location : List Char := []
  friendlyName : List Char := []
  controlURL : List Char := []
  deriving DecidableEq

/-! ## DIDL-Lite attribute and element scanning -/

/-- Remainder of `s` after the first occurrence of `pat`, `none` when
`pat` does not occur in `s`. -/
def findAfter : List Char → List Char → Option (List Char)
  | pat, [] => if pat = [] then some [] else none
  | pat, c :: rest =>
      if (c :: rest).take pat.length = pat
      then some ((c :: rest).drop pat.length)
      else findAfter pat rest

/-- Modelled from the spec: `soapScanAttribute` locates `searchFor`
followed by a double quote within the opening-tag text and returns the
substring up to the next double quote; `none` is "not found" (callers
supply the default). -/
def soapScanAttribute (attributes searchFor : List Char) : Option (List Char) :=
  match findAfter (searchFor ++ [quoteChar]) attributes with
  | some rest => some (rest.takeWhile (fun c => c ≠ quoteChar))
  | none => none

/-- Attribute key `childCount=` from the header (`DIDL_ATTR_CHILD_COUNT`). -/
def didlAttrChildCount : List Char := ("childCount=").toList

/-- Attribute key `size=` from the header (`DIDL_ATTR_SIZE`). -/
def didlAttrSize : List Char := ("size=").toList

/-- Attribute key `id=` from the header (`DIDL_ATTR_ID`). -/
def didlAttrId : List Char := ("id=").toList

/-- Attribute key `parentID=` from the header (`DIDL_ATTR_PARENT_ID`). -/
def didlAttrParentId : List Char := ("parentID=").toList

/-- Attribute key `searchable=` from the header (`DIDL_ATTR_SEARCHABLE`). -/
def didlAttrSearchable : List Char := ("searchable=").toList

/-- Attribute key `bitrate=` from the header (`DIDL_ATTR_BITRATE`). -/
def didlAttrBitrate : List Char := ("bitrate=").toList

/-- Modelled from the spec: `soapScanContainer` builds the entry of one
`<container>` element: `id=`, `parentID=`, `searchable=` attributes and
the title text; `size` is populated from `childCount=` when present,
else the entry is marked `sizeMissing` with `size = 0`. -/
def soapScanContainer (parentId attributes name : List Char) : soapObject_t :=
  let base : soapObject_t :=
    { isDirectory := true
      parentId := parentId
      id := (soapScanAttribute attributes didlAttrId).getD []
      name := name
      searchable := soapScanAttribute attributes didlAttrSearchable = some (("1").toList) }
  match soapScanAttribute attributes didlAttrChildCount with
  | some v => { base with size := parseDec v, sizeMissing := false }
  | none => { base with size := 0, sizeMissing := true }

/-- Modelled from the spec: `soapScanItem` builds the entry of one
`<item>` element; the `<res>` element's `size=` attribute populates
`size`, a missing one marks the entry `sizeMissing` with `size = 0`. -/
def soapScanItem (parentId attributes name resAttributes resUri : List Char) :
    soapObject_t :=
  let base : soapObject_t :=
    { isDirectory := false
      parentId := parentId
      id := (soapScanAttribute attributes didlAttrId).getD []
      name := name
      uri := resUri
      bitrate := parseDec ((soapScanAttribute resAttributes didlAttrBitrate).getD []) }
  match soapScanAttribute resAttributes didlAttrSize with
  | some v => { base with size := parseDec v, sizeMissing := false }
  | none => { base with size := 0, sizeMissing := true }

/-! ## Browse result collection -/

/-- Fixed browse cap from the header: `SOAP_DEFAULT_BROWSE_MAX_COUNT`. -/
def SOAP_DEFAULT_BROWSE_MAX_COUNT : Nat := 100

/-- One syntactic unit of the decoded DIDL-Lite response, as the browse
loop sees it: a complete `<container>`/`<item>` element (already scanned
to an entry), the closing `</DIDL-Lite>` tag, or other markup. -/
inductive didlToken
  | elem (o : soapObject_t)
  | closeDidl
  | other
  deriving DecidableEq

/-- Modelled from the spec: the browse scan loop — each complete element
is appended in document order; the scan stops at the closing
`</DIDL-Lite>` tag or at end of stream. -/
def scanDidl : List didlToken → List soapObject_t
  | [] => []
  | didlToken.closeDidl :: _ => []
  | didlToken.elem o :: rest => o :: scanDidl rest
  | didlToken.other :: rest => scanDidl rest

/-- Modelled from the spec: the server's DIDL-Lite answer to
`Browse(startingIndex, RequestedCount = maxCount)` on a directory —
at most `maxCount` children starting at `startingIndex`, in document
order, followed by the closing tag. -/
def browseResponse (children : List soapObject_t)
    (startingIndex maxCount : Nat) : List didlToken :=
  ((children.drop startingIndex).take maxCount).map didlToken.elem ++
    [didlToken.closeDidl]

/-- Modelled from the spec: `browseServer` posts the Browse request and
collects the scanned entries of the response in document order. -/
def browseServer (children : List soapObject_t) (maxCount : Nat) :
    List soapObject_t :=
  scanDidl (browseResponse children 0 maxCount)

/-! ## SSDP discovery and the server list (header: `m_server`,
`soapSSDPquery`, `clearServerList`, `addServer`) -/

/-- Modelled from the spec: a discovery reply is appended only when no
entry with the same `(ip, port)` is already in the list — duplicate
replies are ignored. -/
def addServerIfNew (list : List soapServer_t) (s : soapServer_t) :
    List soapServer_t :=
  if list.any (fun t => t.ip == s.ip && t.port == s.port)
  then list
  else list ++ [s]

/-- Modelled from the spec: one discovery call folds the received replies
into the cumulative server list. -/
def soapSSDPquery (list : List soapServer_t) (replies : List soapServer_t) :
    List soapServer_t :=
  replies.foldl addServerIfNew list

/-- Modelled from the spec: `clearServerList` empties the list. -/
def clearServerList : List soapServer_t := []

/-- No two entries of the list share the same `(ip, port)` pair. -/
def serverListUnique (l : List soapServer_t) : Prop :=
  l.Pairwise (fun a b => ¬(a.ip = b.ip ∧ a.port = b.port))

/-! ## HTTP response header parsing (header: `HTTP_HEADER_200_OK`,
`HEADER_CONTENT_LENGTH`, `HEADER_TRANS_ENC_CHUNKED`, `soapReadHttpHeader`) -/

/-- Status line required for success, from the header macro
`HTTP_HEADER_200_OK`. -/
def HTTP_HEADER_200_OK : List Char := ("HTTP/1.1 200 OK").toList

/-- Content-Length header key from the header macro
`HEADER_CONTENT_LENGTH`. -/
def HEADER_CONTENT_LENGTH : List Char := ("Content-Length: ").toList

/-- Chunked transfer-encoding header line from the header macro
`HEADER_TRANS_ENC_CHUNKED`. -/
def HEADER_TRANS_ENC_CHUNKED : List Char := ("Transfer-Encoding: chunked").toList

/-- ASCII lower-casing of one character. -/
def lowerChar (c : Char) : Char :=
  if 'A' ≤ c ∧ c ≤ 'Z' then Char.ofNat (c.toNat + 32) else c

/-- Case-insensitive key match at the start of a header line. -/
def startsWithCI (key line : List Char) : Bool :=
  (line.take key.length).map lowerChar == key.map lowerChar

/-- Result triple of `soapReadHttpHeader`. -/
structure httpHeaderResult where
  statusOk : Bool
  contentLength : Option Nat
  chunked : Bool
  deriving DecidableEq

/-- Modelled from the spec: `soapReadHttpHeader` over the received header
lines — success requires the status line `HTTP/1.1 200 OK` exactly, the
`Content-Length:` key is matched case-insensitively, and
`Transfer-Encoding: chunked` is recognized. -/
def soapReadHttpHeader (lines : List (List Char)) : httpHeaderResult :=
  { statusOk := lines.head? == some HTTP_HEADER_200_OK
    contentLength :=
      match lines.find? (fun l => startsWithCI HEADER_CONTENT_LENGTH l) with
      | some l => some (parseDec (l.drop HEADER_CONTENT_LENGTH.length))
      | none => none
    chunked := lines.any (fun l => l == HEADER_TRANS_ENC_CHUNKED) }

/-! ## Session connection lifecycle (header: `m_clientDataConOpen`,
`connectToServer`, `readStop`) -/

/-- Session state: the data connections currently open at the transport.
The header keeps the single marker `m_clientDataConOpen`; the list lets
the at-most-one property be stated rather than assumed. -/
structure sessionState where
  openConnections : List Nat
  deriving DecidableEq

/-- The `m_clientDataConOpen` marker: some data connection is open. -/
def m_clientDataConOpen (s : sessionState) : Bool :=
  !s.openConnections.isEmpty

/-- Observable transport events of a session operation. -/
inductive connEvent
  | closeEvent
  | openEvent (id : Nat)
  deriving DecidableEq

/-- Modelled from the spec: closing the data connection (`readStop`),
idempotent — no event when nothing is open. -/
def closeDataConnection (s : sessionState) : sessionState × List connEvent :=
  if m_clientDataConOpen s
  then (⟨[]⟩, [connEvent.closeEvent])
  else (s, [])

/-- Modelled from the spec: any operation that opens a new data
connection (GET, POST, download) first closes a prior open one, then
opens the new connection. -/
def openDataConnection (s : sessionState) (id : Nat) :
    sessionState × List connEvent :=
  ((⟨id :: (closeDataConnection s).1.openConnections⟩ : sessionState),
    (closeDataConnection s).2 ++ [connEvent.openEvent id])

/-- Modelled from the spec: the session operations that touch the data
connection — GET, SOAP POST, download start each open a connection,
`readStop` closes it. -/
inductive sessionStep : sessionState → sessionState → Prop
  | doGet (s : sessionState) (id : Nat) : sessionStep s (openDataConnection s id).1
  | doPost (s : sessionState) (id : Nat) : sessionStep s (openDataConnection s id).1
  | doDownload (s : sessionState) (id : Nat) : sessionStep s (openDataConnection s id).1
  | doReadStop (s : sessionState) : sessionStep s (closeDataConnection s).1

/-- The session starts with no connection open. -/
def initialSession : sessionState := ⟨[]⟩

/-- States reachable by session operations from the initial state. -/
inductive sessionReachable : sessionState → Prop
  | init : sessionReachable initialSession
  | step {s t : sessionState} :
      sessionReachable s → sessionStep s t → sessionReachable t

/-! ## Transport-control SOAP bodies (header: `SOAP_PLAY`, `SOAP_PAUSE`,
`SOAP_STOP`, `transportAction_et`) -/

/-- Transport action enum from the header. -/
inductive transportAction_et
  | PLAY
  | PAUSE
  | STOP
  | SETURI
  deriving DecidableEq

/-- Fixed SOAP body of Play, from the header macro `SOAP_PLAY`. -/
def SOAP_PLAY : List Char :=
  ("<u:Play xmlns:u=\"urn:schemas-upnp-org:service:AVTransport:1\">\r\n<InstanceID>0</InstanceID>\r\n<Speed>1</Speed>\r\n</u:Play>\r\n").toList

/-- Fixed SOAP body of Pause, from the header macro `SOAP_PAUSE`,
verbatim — including its closing tag. -/
def SOAP_PAUSE : List Char :=
  ("<u:Pause xmlns:u=\"urn:schemas-upnp-org:service:AVTransport:1\">\r\n<InstanceID>0</InstanceID>\r\n</u:Play>\r\n").toList

/-- Fixed SOAP body of Stop, from the header macro `SOAP_STOP`. -/
def SOAP_STOP : List Char :=
  ("<u:Stop xmlns:u=\"urn:schemas-upnp-org:service:AVTransport:1\">\r\n<InstanceID>0</InstanceID>\r\n</u:Stop>\r\n").toList

/-- Modelled from the spec: `soapTransportActionPost` posts the fixed
SOAP body of the requested action (`play()`, `pause()`, `stop()` call it
with their enum value); the SetAVTransportURI body is commented out in
the header, so `SETURI` carries no body. -/
def transportActionBody : transportAction_et → List Char
  | .PLAY => SOAP_PLAY
  | .PAUSE => SOAP_PAUSE
  | .STOP => SOAP_STOP
  | .SETURI => []

/-- Name of the action element opened by `<u:` in a SOAP body: the
characters after the first `<u:` up to the first space. -/
def actionOpenName (body : List Char) : Option (List Char) :=
  match findAfter (("<u:").toList) body with
  | some rest => some (rest.takeWhile (fun c => c ≠ spaceChar))
  | none => none

/-- Name of the action element closed by `</u:` in a SOAP body: the
characters after the first `</u:` up to the closing `>`. -/
def actionCloseName (body : List Char) : Option (List Char) :=
  match findAfter (("</u:").toList) body with
  | some rest => some (rest.takeWhile (fun c => c ≠ '>'))
  | none => none

/-- A SOAP action body is tag-well-formed when the element name opened
with `<u:` matches the name closed with `</u:`. -/
def actionTagsMatch (body : List Char) : Bool :=
  (actionOpenName body).isSome && actionOpenName body == actionCloseName body

/-! ## Helper lemmas -/

theorem scanDidl_elems_append (l : List soapObject_t) (rest : List didlToken) :
    scanDidl (l.map didlToken.elem ++ rest) = l ++ scanDidl rest := by
  induction l with
  | nil => simp [scanDidl]
  | cons o os ih => simp [scanDidl, ih]

theorem closeDataConnection_empties (s : sessionState) :
    (closeDataConnection s).1.openConnections = [] := by
  unfold closeDataConnection
  split
  · rfl
  · rename_i h
    simp only [m_clientDataConOpen, Bool.not_eq_true', Bool.not_eq_false] at h
    exact List.isEmpty_iff.mp h

theorem addServerIfNew_skip_or_append (l : List soapServer_t) (s : soapServer_t) :
    addServerIfNew l s = l ∨ addServerIfNew l s = l ++ [s] := by
  unfold addServerIfNew
  split
  · exact Or.inl rfl
  · exact Or.inr rfl

theorem soapSSDPquery_extends (replies : List soapServer_t) :
    ∀ l, ∃ added, soapSSDPquery l replies = l ++ added := by
  induction replies with
  | nil => exact fun l => ⟨[], by simp [soapSSDPquery]⟩
  | cons r rs ih =>
      intro l
      have step : soapSSDPquery l (r :: rs) = soapSSDPquery (addServerIfNew l r) rs := rfl
      rcases addServerIfNew_skip_or_append l r with h | h
      · rcases ih (addServerIfNew l r) with ⟨added, ha⟩
        exact ⟨added, by rw [step, ha, h]⟩
      · rcases ih (addServerIfNew l r) with ⟨added, ha⟩
        exact ⟨[r] ++ added, by rw [step, ha, h]; simp⟩

theorem addServerIfNew_unique {l : List soapServer_t} (s : soapServer_t)
    (h : serverListUnique l) : serverListUnique (addServerIfNew l s) := by
  unfold addServerIfNew
  split
  · exact h
  · rename_i hany
    rw [Bool.not_eq_true, List.any_eq_false] at hany
    refine List.pairwise_append.mpr ⟨h, List.pairwise_singleton _ _, ?_⟩
    intro a ha b hb
    have := hany a ha
    simp only [List.mem_singleton] at hb
    subst hb
    intro hcontra
    exact this (by simp [hcontra.1, hcontra.2])

theorem soapSSDPquery_unique (replies : List soapServer_t) :
    ∀ l, serverListUnique l → serverListUnique (soapSSDPquery l replies) := by
  induction replies with
  | nil => exact fun l h => h
  | cons r rs ih =>
      intro l h
      exact ih (addServerIfNew l r) (addServerIfNew_unique r h)

theorem decAux_pass (c : Char) (rest : List Char) (h : c ≠ '&') :
    soapDecodeEntitiesAux none (c :: rest) = c :: soapDecodeEntitiesAux none rest := by
  simp [soapDecodeEntitiesAux, h]

theorem decAux_amp (rest : List Char) :
    soapDecodeEntitiesAux none ('&' :: rest) = soapDecodeEntitiesAux (some ['&']) rest := by
  simp [soapDecodeEntitiesAux]

theorem decAux_buf_match {buf : List Char} {c r : Char} (rest : List Char)
    (h : lookupEntity (buf ++ [c]) = some r) :
    soapDecodeEntitiesAux (some buf) (c :: rest) =
      r :: soapDecodeEntitiesAux none rest := by
  simp [soapDecodeEntitiesAux, h]

theorem decAux_buf_cont {buf : List Char} {c : Char} (rest : List Char)
    (h : lookupEntity (buf ++ [c]) = none)
    (h2 : ¬(c = ';' ∨ xmlReplaceBufferSize ≤ (buf ++ [c]).length)) :
    soapDecodeEntitiesAux (some buf) (c :: rest) =
      soapDecodeEntitiesAux (some (buf ++ [c])) rest := by
  simp only [soapDecodeEntitiesAux, h]
  rw [if_neg h2]

theorem decAux_buf_flush {buf : List Char} {c : Char} (rest : List Char)
    (h : lookupEntity (buf ++ [c]) = none)
    (h2 : c = ';' ∨ xmlReplaceBufferSize ≤ (buf ++ [c]).length) :
    soapDecodeEntitiesAux (some buf) (c :: rest) =
      (buf ++ [c]) ++ soapDecodeEntitiesAux none rest := by
  simp only [soapDecodeEntitiesAux, h]
  rw [if_pos h2]

theorem lookupEntity_semicolon {l : List Char} {r : Char}
    (h : lookupEntity l = some r) : l.getLast? = some ';' := by
  unfold lookupEntity at h
  by_cases h1 : l = ("&amp;").toList
  · subst h1
    decide
  rw [if_neg h1] at h
  by_cases h2 : l = ("&lt;").toList
  · subst h2
    decide
  rw [if_neg h2] at h
  by_cases h3 : l = ("&gt;").toList
  · subst h3
    decide
  rw [if_neg h3] at h
  by_cases h4 : l = ("&quot;").toList
  · subst h4
    decide
  rw [if_neg h4] at h
  by_cases h5 : l = ("&apos;").toList
  · subst h5
    decide
  rw [if_neg h5] at h
  unfold matchNumericEntity at h
  by_cases h6 : l.take 2 = ['&', '#'] ∧ l.getLast? = some ';' ∧
      (l.drop 2).dropLast ≠ [] ∧ ((l.drop 2).dropLast).all Char.isDigit = true
  · exact h6.2.1
  · rw [if_neg h6] at h
    exact absurd h (by simp)

theorem decAux_buffer_run :
    ∀ (mid buf rest : List Char), ';' ∉ mid →
      buf.length + mid.length + 1 ≤ xmlReplaceBufferSize →
      lookupEntity (buf ++ (mid ++ [';'])) = none →
      soapDecodeEntitiesAux (some buf) (mid ++ ';' :: rest) =
        (buf ++ (mid ++ [';'])) ++ soapDecodeEntitiesAux none rest := by
  intro mid
  induction mid with
  | nil =>
      intro buf rest _ _ hno
      simp only [List.nil_append] at hno ⊢
      exact decAux_buf_flush rest hno (Or.inl rfl)
  | cons m ms ih =>
      intro buf rest hmem hlen hno
      have hms : ';' ∉ ms := fun hc => hmem (List.mem_cons_of_mem m hc)
      have hm : m ≠ ';' := fun hcontra => hmem (hcontra ▸ List.mem_cons_self m ms)
      have hnomatch : lookupEntity (buf ++ [m]) = none := by
        cases hval : lookupEntity (buf ++ [m]) with
        | none => rfl
        | some r =>
            have hsemi := lookupEntity_semicolon hval
            rw [List.getLast?_concat] at hsemi
            exact absurd (Option.some.inj hsemi) hm
      have hnotflush : ¬(m = ';' ∨ xmlReplaceBufferSize ≤ (buf ++ [m]).length) := by
        push_neg
        refine ⟨hm, ?_⟩
        rw [List.length_append, List.length_singleton]
        simp only [List.length_cons] at hlen
        unfold xmlReplaceBufferSize at hlen ⊢
        omega
      rw [List.cons_append, decAux_buf_cont _ hnomatch hnotflush]
      have hno' : lookupEntity ((buf ++ [m]) ++ (ms ++ [';'])) = none := by
        rw [List.append_assoc]
        simpa using hno
      have hlen' : (buf ++ [m]).length + ms.length + 1 ≤ xmlReplaceBufferSize := by
        rw [List.length_append, List.length_singleton]
        simp only [List.length_cons] at hlen
        omega
      rw [ih (buf ++ [m]) rest hms hlen' hno']
      simp [List.append_assoc]

theorem decAux_encodeChar (c : Char) (t : List Char) :
    soapDecodeEntitiesAux none (xmlEncodeChar c ++ t) =
      c :: soapDecodeEntitiesAux none t := by
  unfold xmlEncodeChar
  by_cases h1 : c = '&'
  · subst h1
    rw [if_pos rfl, (by decide : ("&amp;").toList = ['&', 'a', 'm', 'p', ';'])]
    simp [soapDecodeEntitiesAux, lookupEntity, matchNumericEntity, xmlReplaceBufferSize]
  rw [if_neg h1]
  by_cases h2 : c = '<'
  · subst h2
    rw [if_pos rfl, (by decide : ("&lt;").toList = ['&', 'l', 't', ';'])]
    simp [soapDecodeEntitiesAux, lookupEntity, matchNumericEntity, xmlReplaceBufferSize]
  rw [if_neg h2]
  by_cases h3 : c = '>'
  · subst h3
    rw [if_pos rfl, (by decide : ("&gt;").toList = ['&', 'g', 't', ';'])]
    simp [soapDecodeEntitiesAux, lookupEntity, matchNumericEntity, xmlReplaceBufferSize]
  rw [if_neg h3]
  by_cases h4 : c = quoteChar
  · subst h4
    rw [if_pos rfl, (by decide : ("&quot;").toList = ['&', 'q', 'u', 'o', 't', ';'])]
    simp [soapDecodeEntitiesAux, lookupEntity, matchNumericEntity, xmlReplaceBufferSize,
      quoteChar]
  rw [if_neg h4]
  by_cases h5 : c = aposChar
  · subst h5
    rw [if_pos rfl, (by decide : ("&apos;").toList = ['&', 'a', 'p', 'o', 's', ';'])]
    simp [soapDecodeEntitiesAux, lookupEntity, matchNumericEntity, xmlReplaceBufferSize,
      aposChar]
  rw [if_neg h5]
  exact decAux_pass c t h1

theorem lookupEntity_numeric (ds : List Char) (h1 : ds ≠ [])
    (h2 : ds.all Char.isDigit = true) :
    lookupEntity ('&' :: '#' :: (ds ++ [';'])) =
      some (Char.ofNat (digitsToNat ds % 256)) := by
  have hshape : '&' :: '#' :: (ds ++ [';']) = ('&' :: '#' :: ds) ++ [';'] := by simp
  have hlast : ('&' :: '#' :: (ds ++ [';'])).getLast? = some ';' := by
    rw [hshape]
    exact List.getLast?_concat _
  have hdl : (('&' :: '#' :: (ds ++ [';'])).drop 2).dropLast = ds := by
    show (ds ++ [';']).dropLast = ds
    exact List.dropLast_concat
  have hne1 : ('&' :: '#' :: (ds ++ [';'])) ≠ ("&amp;").toList := by
    intro hcontra
    rw [(by decide : ("&amp;").toList = ['&', 'a', 'm', 'p', ';'])] at hcontra
    injection hcontra with ha hb
    injection hb with hc hd
    exact absurd hc (by decide)
  have hne2 : ('&' :: '#' :: (ds ++ [';'])) ≠ ("&lt;").toList := by
    intro hcontra
    rw [(by decide : ("&lt;").toList = ['&', 'l', 't', ';'])] at hcontra
    injection hcontra with ha hb
    injection hb with hc hd
    exact absurd hc (by decide)
  have hne3 : ('&' :: '#' :: (ds ++ [';'])) ≠ ("&gt;").toList := by
    intro hcontra
    rw [(by decide : ("&gt;").toList = ['&', 'g', 't', ';'])] at hcontra
    injection hcontra with ha hb
    injection hb with hc hd
    exact absurd hc (by decide)
  have hne4 : ('&' :: '#' :: (ds ++ [';'])) ≠ ("&quot;").toList := by
    intro hcontra
    rw [(by decide : ("&quot;").toList = ['&', 'q', 'u', 'o', 't', ';'])] at hcontra
    injection hcontra with ha hb
    injection hb with hc hd
    exact absurd hc (by decide)
  have hne5 : ('&' :: '#' :: (ds ++ [';'])) ≠ ("&apos;").toList := by
    intro hcontra
    rw [(by decide : ("&apos;").toList = ['&', 'a', 'p', 'o', 's', ';'])] at hcontra
    injection hcontra with ha hb
    injection hb with hc hd
    exact absurd hc (by decide)
  unfold lookupEntity
  rw [if_neg hne1, if_neg hne2, if_neg hne3, if_neg hne4, if_neg hne5]
  unfold matchNumericEntity
  rw [if_pos ⟨rfl, hlast, by rw [hdl]; exact h1, by rw [hdl]; exact h2⟩, hdl]

theorem xmlEncode_cons (c : Char) (s : List Char) :
    xmlEncode (c :: s) = xmlEncodeChar c ++ xmlEncode s := by
  simp [xmlEncode]

theorem xmlReplaceRun_succ (fuel : Nat) (ctx : xmlReplaceCtx) (input : List Char) :
    xmlReplaceRun (fuel + 1) ctx input =
      if ctx.state ≠ eXmlReplaceState.xmlTakeFromBuffer ∧ input = []
      then []
      else ((xmlReplaceCall ctx input).1).toList ++
        xmlReplaceRun fuel (xmlReplaceCall ctx input).2.1
          (xmlReplaceCall ctx input).2.2 := by
  rfl

theorem xmlReplaceRun_replay :
    ∀ (suffix : List Char), suffix ≠ [] →
      ∀ (b : List Char) (o : Nat) (input : List Char) (fuel : Nat),
        b.drop o = suffix →
        xmlReplaceRun (suffix.length + fuel)
            ⟨eXmlReplaceState.xmlTakeFromBuffer, b, o⟩ input =
          suffix ++ xmlReplaceRun fuel
            ⟨eXmlReplaceState.xmlPassthrough, [], 0⟩ input := by
  intro suffix
  induction suffix with
  | nil => intro h; exact absurd rfl h
  | cons c cs ih =>
      intro _ b o input fuel hdrop
      by_cases hcs : cs = []
      · subst hcs
        rw [(by simp only [List.length_singleton]; omega :
            ([c] : List Char).length + fuel = fuel + 1), xmlReplaceRun_succ,
          if_neg (by simp)]
        have hcall : xmlReplaceCall ⟨eXmlReplaceState.xmlTakeFromBuffer, b, o⟩ input =
            (some c, ⟨eXmlReplaceState.xmlPassthrough, [], 0⟩, input) := by
          simp [xmlReplaceCall, hdrop]
        rw [hcall]
        simp
      · rw [(by simp only [List.length_cons]; omega :
            (c :: cs).length + fuel = (cs.length + fuel) + 1),
          xmlReplaceRun_succ, if_neg (by simp)]
        have hcall : xmlReplaceCall ⟨eXmlReplaceState.xmlTakeFromBuffer, b, o⟩ input =
            (some c, ⟨eXmlReplaceState.xmlTakeFromBuffer, b, o + 1⟩, input) := by
          simp [xmlReplaceCall, hdrop, hcs]
        rw [hcall]
        have hdrop' : b.drop (o + 1) = cs := by
          have hstep : (b.drop o).drop 1 = b.drop (o + 1) := List.drop_drop 1 o b
          rw [← hstep, hdrop]
          rfl
        rw [ih hcs b (o + 1) input fuel hdrop']
        simp

theorem xmlReplaceRun_decodes :
    ∀ (input : List Char),
      (∀ buf fuel, buf ≠ [] → 2 * input.length + buf.length + 1 ≤ fuel →
        xmlReplaceRun fuel ⟨eXmlReplaceState.xmlAmpDetected, buf, 0⟩ input =
          soapDecodeEntitiesAux (some buf) input) ∧
      (∀ fuel, 2 * input.length + 1 ≤ fuel →
        xmlReplaceRun fuel ⟨eXmlReplaceState.xmlPassthrough, [], 0⟩ input =
          soapDecodeEntitiesAux none input) := by
  intro input
  induction input with
  | nil =>
      constructor
      · intro buf fuel _ hfuel
        obtain ⟨f, rfl⟩ : ∃ f, fuel = f + 1 := ⟨fuel - 1, by omega⟩
        rw [xmlReplaceRun_succ, if_pos ⟨by simp, rfl⟩]
        rfl
      · intro fuel hfuel
        obtain ⟨f, rfl⟩ : ∃ f, fuel = f + 1 := ⟨fuel - 1, by omega⟩
        rw [xmlReplaceRun_succ, if_pos ⟨by simp, rfl⟩]
        rfl
  | cons c rest ih =>
      constructor
      · intro buf fuel hbuf hfuel
        obtain ⟨f, rfl⟩ : ∃ f, fuel = f + 1 := ⟨fuel - 1, by omega⟩
        rw [xmlReplaceRun_succ, if_neg (by simp)]
        cases hl : lookupEntity (buf ++ [c]) with
        | some r =>
            have hcall : xmlReplaceCall ⟨eXmlReplaceState.xmlAmpDetected, buf, 0⟩
                (c :: rest) = (some r, ⟨eXmlReplaceState.xmlPassthrough, [], 0⟩, rest) := by
              simp [xmlReplaceCall, hl]
            rw [hcall, decAux_buf_match rest hl]
            have hfr : 2 * rest.length + 1 ≤ f := by
              simp only [List.length_cons] at hfuel
              omega
            rw [ih.2 f hfr]
            simp
        | none =>
            by_cases hfl : c = ';' ∨ xmlReplaceBufferSize ≤ (buf ++ [c]).length
            · have hcall : xmlReplaceCall ⟨eXmlReplaceState.xmlAmpDetected, buf, 0⟩
                  (c :: rest) = ((buf ++ [c]).head?,
                    ⟨eXmlReplaceState.xmlTakeFromBuffer, buf ++ [c], 1⟩, rest) := by
                simp only [xmlReplaceCall, hl]
                rw [if_pos hfl]
              rw [hcall]
              obtain ⟨b0, bs, rfl⟩ : ∃ b0 bs, buf = b0 :: bs := by
                cases buf with
                | nil => exact absurd rfl hbuf
                | cons x xs => exact ⟨x, xs, rfl⟩
              have hbc : (b0 :: bs) ++ [c] = b0 :: (bs ++ [c]) := List.cons_append b0 bs [c]
              have htl : bs ++ [c] ≠ [] := by simp
              obtain ⟨f', hfsplit, hf'⟩ :
                  ∃ f', f = (bs ++ [c]).length + f' ∧ 2 * rest.length + 1 ≤ f' := by
                have hfge : (bs ++ [c]).length + (2 * rest.length + 1) ≤ f := by
                  simp only [List.length_cons, List.length_append,
                    List.length_nil] at hfuel ⊢
                  omega
                exact ⟨f - (bs ++ [c]).length, by omega, by omega⟩
              rw [hbc, hfsplit]
              simp only [List.head?_cons]
              rw [xmlReplaceRun_replay (bs ++ [c]) htl (b0 :: (bs ++ [c])) 1 rest f'
                  (by simp),
                ih.2 f' hf', decAux_buf_flush rest hl hfl]
              simp
            · have hcall : xmlReplaceCall ⟨eXmlReplaceState.xmlAmpDetected, buf, 0⟩
                  (c :: rest) = (none,
                    ⟨eXmlReplaceState.xmlAmpDetected, buf ++ [c], 0⟩, rest) := by
                simp only [xmlReplaceCall, hl]
                rw [if_neg hfl]
              rw [hcall]
              have hfr : 2 * rest.length + (buf ++ [c]).length + 1 ≤ f := by
                simp only [List.length_cons, List.length_append,
                  List.length_nil] at hfuel ⊢
                omega
              rw [show ((none : Option Char)).toList ++
                  xmlReplaceRun f ⟨eXmlReplaceState.xmlAmpDetected, buf ++ [c], 0⟩ rest =
                  xmlReplaceRun f ⟨eXmlReplaceState.xmlAmpDetected, buf ++ [c], 0⟩ rest
                from rfl]
              rw [ih.1 (buf ++ [c]) f (by simp) hfr, decAux_buf_cont rest hl hfl]
      · intro fuel hfuel
        obtain ⟨f, rfl⟩ : ∃ f, fuel = f + 1 := ⟨fuel - 1, by omega⟩
        rw [xmlReplaceRun_succ, if_neg (by simp)]
        by_cases hc : c = '&'
        · subst hc
          have hcall : xmlReplaceCall ⟨eXmlReplaceState.xmlPassthrough, [], 0⟩
              ('&' :: rest) = (none, ⟨eXmlReplaceState.xmlAmpDetected, ['&'], 0⟩, rest) := by
            simp [xmlReplaceCall]
          rw [hcall]
          have hfr : 2 * rest.length + (['&'] : List Char).length + 1 ≤ f := by
            simp only [List.length_cons, List.length_nil] at hfuel ⊢
            omega
          rw [show ((none : Option Char)).toList ++
              xmlReplaceRun f ⟨eXmlReplaceState.xmlAmpDetected, ['&'], 0⟩ rest =
              xmlReplaceRun f ⟨eXmlReplaceState.xmlAmpDetected, ['&'], 0⟩ rest
            from rfl]
          rw [ih.1 ['&'] f (by simp) hfr, decAux_amp]
        · have hcall : xmlReplaceCall ⟨eXmlReplaceState.xmlPassthrough, [], 0⟩
              (c :: rest) = (some c, ⟨eXmlReplaceState.xmlPassthrough, [], 0⟩, rest) := by
            simp [xmlReplaceCall, hc]
          rw [hcall]
          have hfr : 2 * rest.length + 1 ≤ f := by
            simp only [List.length_cons] at hfuel
            omega
          rw [ih.2 f hfr, decAux_pass c rest hc]
          simp

/-- Coherence of the two decoder views: driving the per-call `nextByte()`
machine to end of stream emits exactly the stream-level entity decode. -/
theorem xmlReplaceRun_eq_soapDecodeEntities (input : List Char) (fuel : Nat)
    (h : 2 * input.length + 1 ≤ fuel) :
    xmlReplaceRun fuel ⟨eXmlReplaceState.xmlPassthrough, [], 0⟩ input =
      soapDecodeEntities input :=
  (xmlReplaceRun_decodes input).2 fuel h

theorem hexDigitVal_hexDigitChar : ∀ d, d < 16 → hexDigitVal (hexDigitChar d) = some d := by
  decide

theorem hexDigitVal_cr : hexDigitVal crChar = none := by decide

theorem hexDigits_lt (n : Nat) : ∀ d ∈ hexDigits n, d < 16 := by
  induction n using Nat.strong_induction_on with
  | _ n ih =>
    rw [hexDigits]
    split
    · simp
    · rename_i h
      intro d hd
      rcases List.mem_append.mp hd with h1 | h2
      · exact ih (n / 16) (Nat.div_lt_self (Nat.pos_of_ne_zero h) (by decide)) d h1
      · rw [List.mem_singleton] at h2
        subst h2
        exact Nat.mod_lt n (by decide)

theorem hexDigits_foldl (n : Nat) :
    ∀ a, (hexDigits n).foldl (fun acc d => acc * 16 + d) a =
      a * 16 ^ (hexDigits n).length + n := by
  induction n using Nat.strong_induction_on with
  | _ n ih =>
    intro a
    rw [hexDigits]
    split
    · rename_i h
      subst h
      simp
    · rename_i h
      rw [List.foldl_append, List.length_append,
        ih (n / 16) (Nat.div_lt_self (Nat.pos_of_ne_zero h) (by decide)) a]
      have hmod : 16 * (n / 16) + n % 16 = n := Nat.div_add_mod n 16
      calc (a * 16 ^ (hexDigits (n / 16)).length + n / 16) * 16 + n % 16
          = a * (16 ^ (hexDigits (n / 16)).length * 16) + (16 * (n / 16) + n % 16) := by
            ring
        _ = a * 16 ^ ((hexDigits (n / 16)).length + [n % 16].length) + n := by
            rw [hmod, List.length_singleton, pow_succ]

theorem parseChunkSizeLine_digits :
    ∀ (ds : List Nat), (∀ d ∈ ds, d < 16) → ∀ (rest : List Char) (acc : Nat),
      parseChunkSizeLine (ds.map hexDigitChar ++ crChar :: lfChar :: rest) acc =
        some (ds.foldl (fun a d => a * 16 + d) acc, rest) := by
  intro ds
  induction ds with
  | nil =>
      intro _ rest acc
      simp [parseChunkSizeLine, hexDigitVal_cr]
  | cons d ds ih =>
      intro hlt rest acc
      have hd : hexDigitVal (hexDigitChar d) = some d :=
        hexDigitVal_hexDigitChar d (hlt d (by simp))
      simp only [List.map_cons, List.cons_append, parseChunkSizeLine, hd,
        List.foldl_cons]
      exact ih (fun x hx => hlt x (by simp [hx])) rest (acc * 16 + d)

theorem parseChunkSizeLine_toHex (n : Nat) (rest : List Char) :
    parseChunkSizeLine (toHex n ++ crChar :: lfChar :: rest) 0 = some (n, rest) := by
  by_cases h : n = 0
  · subst h
    have h0 : toHex 0 = [0].map hexDigitChar := by decide
    rw [h0, parseChunkSizeLine_digits [0] (by decide)]
    simp
  · unfold toHex
    rw [if_neg h, parseChunkSizeLine_digits (hexDigits n) (hexDigits_lt n),
      hexDigits_foldl n 0]
    simp

theorem encodeChunked_cons (c : List Char) (cs : List (List Char)) :
    encodeChunked (c :: cs) = encodeChunk c ++ encodeChunked cs := by
  simp [encodeChunked, List.flatten_cons, List.append_assoc]

theorem encodeChunked_length (chunks : List (List Char)) :
    chunks.length ≤ (encodeChunked chunks).length := by
  induction chunks with
  | nil => simp [encodeChunked]
  | cons c cs ih =>
      rw [encodeChunked_cons, List.length_append, List.length_cons]
      have h1 : 1 ≤ (encodeChunk c).length := by
        unfold encodeChunk
        rw [List.length_append]
        simp only [List.length_cons, List.length_append]
        omega
      omega

theorem dechunkAux_succ (fuel : Nat) (s : List Char) :
    dechunkAux (fuel + 1) s = dechunkStep (dechunkAux fuel) s := by
  simp [dechunkAux]

theorem dechunkAux_parse_succ (fuel : Nat) (s : List Char) (n : Nat)
    (rest : List Char) (h : parseChunkSizeLine s 0 = some (n + 1, rest)) :
    dechunkAux (fuel + 1) s =
      if (rest.drop (n + 1)).take 2 = [crChar, lfChar] ∧ n + 3 ≤ rest.length
      then match dechunkAux fuel (rest.drop (n + 3)) with
           | some tail => some (rest.take (n + 1) ++ tail)
           | none => none
      else none := by
  rw [dechunkAux_succ]
  unfold dechunkStep
  rw [h]

theorem dechunkAux_encodeChunked :
    ∀ (chunks : List (List Char)) (fuel : Nat), chunks.length < fuel →
      (∀ c ∈ chunks, c ≠ []) →
      dechunkAux fuel (encodeChunked chunks) = some chunks.flatten := by
  intro chunks
  induction chunks with
  | nil =>
      intro fuel hf _
      obtain ⟨f, rfl⟩ : ∃ f, fuel = f + 1 := ⟨fuel - 1, by omega⟩
      have hparse : parseChunkSizeLine (encodeChunked []) 0 =
          some (0, [crChar, lfChar]) := by decide
      simp [dechunkAux, dechunkStep, hparse]
  | cons c cs ih =>
      intro fuel hf hne
      obtain ⟨f, rfl⟩ : ∃ f, fuel = f + 1 := ⟨fuel - 1, by omega⟩
      have hcne : c ≠ [] := hne c (by simp)
      obtain ⟨m, hm⟩ : ∃ m, c.length = m + 1 := by
        cases c with
        | nil => exact absurd rfl hcne
        | cons a as => exact ⟨as.length, rfl⟩
      have hform : encodeChunked (c :: cs) =
          toHex c.length ++ crChar :: lfChar ::
            (c ++ crChar :: lfChar :: encodeChunked cs) := by
        rw [encodeChunked_cons]
        unfold encodeChunk
        simp [List.append_assoc]
      have hparse := parseChunkSizeLine_toHex c.length
        (c ++ crChar :: lfChar :: encodeChunked cs)
      have hdropR : (c ++ crChar :: lfChar :: encodeChunked cs).drop (m + 1) =
          crChar :: lfChar :: encodeChunked cs := by
        rw [← hm]
        exact List.drop_left c _
      have htake2 : ((c ++ crChar :: lfChar :: encodeChunked cs).drop (m + 1)).take 2 =
          [crChar, lfChar] := by
        rw [hdropR]
        rfl
      have hlenR : m + 3 ≤ (c ++ crChar :: lfChar :: encodeChunked cs).length := by
        rw [List.length_append]
        simp only [List.length_cons]
        omega
      have htakeP : (c ++ crChar :: lfChar :: encodeChunked cs).take (m + 1) = c := by
        rw [← hm]
        exact List.take_left c _
      have hdrop3 : (c ++ crChar :: lfChar :: encodeChunked cs).drop (m + 3) =
          encodeChunked cs := by
        have he : m + 3 = (m + 1) + 2 := by omega
        rw [he, ← List.drop_drop, hdropR]
        rfl
      have hrec : dechunkAux f (encodeChunked cs) = some cs.flatten := by
        refine ih f ?_ (fun x hx => hne x (by simp [hx]))
        simp only [List.length_cons] at hf
        omega
      rw [hm] at hparse
      rw [hform, hm]
      rw [dechunkAux_parse_succ f _ m _ hparse]
      rw [if_pos ⟨htake2, hlenR⟩, hdrop3, hrec]
      simp [htakeP, List.flatten_cons]

theorem dechunk_encodeChunked (chunks : List (List Char))
    (hne : ∀ c ∈ chunks, c ≠ []) :
    dechunk (encodeChunked chunks) = some chunks.flatten := by
  unfold dechunk
  refine dechunkAux_encodeChunked chunks _ ?_ hne
  have := encodeChunked_length chunks
  omega

/-! ## Claim theorems -/

/-- Claim C2: encoding any string with the defined entities and running
it through the entity decoder is the identity; and a malformed `&...;`
run with no full entity match (no interior `;`, within the lookahead
capacity) is emitted by the decoder as that literal text unchanged. -/
theorem encode_decode_identity :
    (∀ s, soapDecodeEntities (xmlEncode s) = s) ∧
    (∀ mid rest, ';' ∉ mid → mid.length + 2 ≤ xmlReplaceBufferSize →
       lookupEntity ('&' :: (mid ++ [';'])) = none →
       soapDecodeEntities ('&' :: (mid ++ ';' :: rest)) =
         '&' :: (mid ++ ';' :: soapDecodeEntities rest)) := by
  constructor
  · intro s
    induction s with
    | nil => rfl
    | cons c cs ih =>
        unfold soapDecodeEntities at ih ⊢
        rw [xmlEncode_cons, decAux_encodeChar, ih]
  · intro mid rest hmem hlen hno
    unfold soapDecodeEntities
    rw [decAux_amp]
    have hno' : lookupEntity (['&'] ++ (mid ++ [';'])) = none := by simpa using hno
    have hlen' : ([('&' : Char)]).length + mid.length + 1 ≤ xmlReplaceBufferSize := by
      rw [List.length_singleton]
      omega
    rw [decAux_buffer_run mid ['&'] rest hmem hlen' hno']
    simp

/-- Claim C2 witness: the encoded form of `a<b&` decodes back, and the
malformed run `&xyz;` passes through literally. -/
theorem encode_decode_identity_witness :
    soapDecodeEntities (xmlEncode (("a<b&").toList)) = ("a<b&").toList ∧
    soapDecodeEntities ('&' :: ((("xyz").toList) ++ ';' :: (("tail").toList))) =
      '&' :: ((("xyz").toList) ++ ';' :: soapDecodeEntities (("tail").toList)) :=
  ⟨encode_decode_identity.1 (("a<b&").toList),
   encode_decode_identity.2 (("xyz").toList) (("tail").toList)
     (by decide) (by decide) (by decide)⟩

/-- Claim C3: the entity state machine per input byte — in passthrough a
non-`&` byte is emitted as-is while `&` is buffered with no emission for
that call; in the buffering state a complete entity match emits exactly
one replacement byte (a numeric `&#NNN;` form emits its codepoint
truncated to one byte) and discards the buffer, while `;` with no match
or lookahead-buffer overflow replays the buffered bytes verbatim one per
call before the machine resumes passthrough. -/
theorem entity_machine_per_byte :
    (∀ ctx c rest, ctx.state = eXmlReplaceState.xmlPassthrough → c ≠ '&' →
       xmlReplaceCall ctx (c :: rest) = (some c, ctx, rest)) ∧
    (∀ ctx rest, ctx.state = eXmlReplaceState.xmlPassthrough →
       xmlReplaceCall ctx ('&' :: rest) =
         (none, ⟨eXmlReplaceState.xmlAmpDetected, ['&'], 0⟩, rest)) ∧
    (∀ ctx c rest r, ctx.state = eXmlReplaceState.xmlAmpDetected →
       lookupEntity (ctx.buffer ++ [c]) = some r →
       xmlReplaceCall ctx (c :: rest) =
         (some r, ⟨eXmlReplaceState.xmlPassthrough, [], 0⟩, rest)) ∧
    (∀ ds, ds ≠ [] → ds.all Char.isDigit = true →
       lookupEntity ('&' :: '#' :: (ds ++ [';'])) =
         some (Char.ofNat (digitsToNat ds % 256))) ∧
    (∀ ctx c rest, ctx.state = eXmlReplaceState.xmlAmpDetected →
       lookupEntity (ctx.buffer ++ [c]) = none →
       (c = ';' ∨ xmlReplaceBufferSize ≤ (ctx.buffer ++ [c]).length) →
       xmlReplaceCall ctx (c :: rest) =
         ((ctx.buffer ++ [c]).head?,
          ⟨eXmlReplaceState.xmlTakeFromBuffer, ctx.buffer ++ [c], 1⟩, rest)) ∧
    (∀ ctx input c cs, ctx.state = eXmlReplaceState.xmlTakeFromBuffer →
       ctx.buffer.drop ctx.offset = c :: cs →
       xmlReplaceCall ctx input =
         if cs = []
         then (some c, ⟨eXmlReplaceState.xmlPassthrough, [], 0⟩, input)
         else (some c, ⟨eXmlReplaceState.xmlTakeFromBuffer, ctx.buffer,
                ctx.offset + 1⟩, input)) := by
  refine ⟨?_, ?_, ?_, ?_, ?_, ?_⟩
  · intro ctx c rest hst hc
    cases ctx with
    | mk st buf off =>
        simp only at hst
        subst hst
        simp [xmlReplaceCall, hc]
  · intro ctx rest hst
    cases ctx with
    | mk st buf off =>
        simp only at hst
        subst hst
        simp [xmlReplaceCall]
  · intro ctx c rest r hst hl
    cases ctx with
    | mk st buf off =>
        simp only at hst hl
        subst hst
        simp [xmlReplaceCall, hl]
  · intro ds h1 h2
    exact lookupEntity_numeric ds h1 h2
  · intro ctx c rest hst hl hflush
    cases ctx with
    | mk st buf off =>
        simp only at hst hl hflush
        subst hst
        simp only [xmlReplaceCall, hl]
        rw [if_pos hflush]
  · intro ctx input c cs hst hdrop
    cases ctx with
    | mk st buf off =>
        simp only at hst hdrop
        subst hst
        simp only [xmlReplaceCall, hdrop]

/-- Claim C3 witness: one passthrough byte, one buffered ampersand, one
completed entity, one replayed fallback byte at concrete states. -/
theorem entity_machine_per_byte_witness :
    xmlReplaceCall ⟨eXmlReplaceState.xmlPassthrough, [], 0⟩ ['x'] =
      (some 'x', ⟨eXmlReplaceState.xmlPassthrough, [], 0⟩, []) ∧
    xmlReplaceCall ⟨eXmlReplaceState.xmlPassthrough, [], 0⟩ ['&'] =
      (none, ⟨eXmlReplaceState.xmlAmpDetected, ['&'], 0⟩, []) ∧
    xmlReplaceCall ⟨eXmlReplaceState.xmlAmpDetected, ['&', 'l', 't'], 0⟩ [';'] =
      (some '<', ⟨eXmlReplaceState.xmlPassthrough, [], 0⟩, []) ∧
    xmlReplaceCall ⟨eXmlReplaceState.xmlTakeFromBuffer, ['&', 'x', ';'], 1⟩ [] =
      (some 'x', ⟨eXmlReplaceState.xmlTakeFromBuffer, ['&', 'x', ';'], 2⟩, []) :=
  ⟨entity_machine_per_byte.1 ⟨eXmlReplaceState.xmlPassthrough, [], 0⟩ 'x' []
     rfl (by decide),
   entity_machine_per_byte.2.1 ⟨eXmlReplaceState.xmlPassthrough, [], 0⟩ [] rfl,
   entity_machine_per_byte.2.2.1 ⟨eXmlReplaceState.xmlAmpDetected, ['&', 'l', 't'], 0⟩
     ';' [] '<' rfl (by decide),
   (entity_machine_per_byte.2.2.2.2.2 ⟨eXmlReplaceState.xmlTakeFromBuffer,
     ['&', 'x', ';'], 1⟩ [] 'x' [';'] rfl (by decide)).trans (by decide)⟩

/-- Claim C4: Browse of a directory with N children using startingIndex=0
and maxCount=K yields exactly min(N, K) entries, appended in server
document order (the result is the order-preserving prefix of the
children), and the scan stops at the closing `</DIDL-Lite>` tag (tokens
after it are never scanned) or at end of stream. -/
theorem browse_returns_min_count (children : List soapObject_t)
    (maxCount : Nat) (garbage : List didlToken) :
    (browseServer children maxCount).length = min children.length maxCount ∧
    browseServer children maxCount = children.take maxCount ∧
    scanDidl (browseResponse children 0 maxCount ++ garbage) =
      browseServer children maxCount := by
  have hbr : browseServer children maxCount = children.take maxCount := by
    unfold browseServer browseResponse
    rw [List.drop_zero, scanDidl_elems_append]
    simp [scanDidl]
  refine ⟨?_, hbr, ?_⟩
  · rw [hbr, List.length_take, Nat.min_comm]
  · unfold browseServer browseResponse
    rw [List.drop_zero, List.append_assoc, scanDidl_elems_append,
      scanDidl_elems_append]
    simp [scanDidl]

/-- Claim C5: a container element whose opening tag carries no
`childCount=` attribute, and an item whose `<res>` element carries no
`size=` attribute, produce an entry with `sizeMissing = true` and
`size = 0`; when `childCount=` is present on a container, `size` is
populated from it and `sizeMissing` is false. -/
theorem scan_size_missing_semantics :
    (∀ parentId attributes name,
       findAfter (didlAttrChildCount ++ [quoteChar]) attributes = none →
       (soapScanContainer parentId attributes name).sizeMissing = true ∧
       (soapScanContainer parentId attributes name).size = 0) ∧
    (∀ parentId attributes name v,
       soapScanAttribute attributes didlAttrChildCount = some v →
       (soapScanContainer parentId attributes name).size = parseDec v ∧
       (soapScanContainer parentId attributes name).sizeMissing = false) ∧
    (∀ parentId attributes name resAttributes resUri,
       findAfter (didlAttrSize ++ [quoteChar]) resAttributes = none →
       (soapScanItem parentId attributes name resAttributes resUri).sizeMissing = true ∧
       (soapScanItem parentId attributes name resAttributes resUri).size = 0) := by
  refine ⟨?_, ?_, ?_⟩
  · intro parentId attributes name h
    have hattr : soapScanAttribute attributes didlAttrChildCount = none := by
      unfold soapScanAttribute
      rw [h]
    unfold soapScanContainer
    rw [hattr]
    exact ⟨rfl, rfl⟩
  · intro parentId attributes name v h
    unfold soapScanContainer
    rw [h]
    exact ⟨rfl, rfl⟩
  · intro parentId attributes name resAttributes resUri h
    have hattr : soapScanAttribute resAttributes didlAttrSize = none := by
      unfold soapScanAttribute
      rw [h]
    unfold soapScanItem
    rw [hattr]
    exact ⟨rfl, rfl⟩

/-- Claim C5 witness: concrete opening tags with and without the
attribute. -/
theorem scan_size_missing_semantics_witness :
    (soapScanContainer [] (("id=\"42\"").toList) []).sizeMissing = true ∧
    (soapScanContainer [] (("id=\"42\" childCount=\"7\"").toList) []).size = 7 := by
  constructor
  · exact (scan_size_missing_semantics.1 [] (("id=\"42\"").toList) [] (by decide)).1
  · have h := (scan_size_missing_semantics.2.1 [] (("id=\"42\" childCount=\"7\"").toList)
      [] (("7").toList) (by decide)).1
    rw [h]
    decide

/-- Claim C6: the server list never holds two entries with the same
`(ip, port)`: one discovery call preserves the uniqueness invariant
(duplicate replies are appended at most once), discovery only appends to
the cumulative list, and only `clearServerList` empties it. -/
theorem server_list_no_duplicates (list replies : List soapServer_t)
    (h : serverListUnique list) :
    serverListUnique (soapSSDPquery list replies) ∧
    (∃ added, soapSSDPquery list replies = list ++ added) ∧
    clearServerList = ([] : List soapServer_t) :=
  ⟨soapSSDPquery_unique replies list h, soapSSDPquery_extends replies list, rfl⟩

/-- Claim C6 witness: two identical replies from the same endpoint end up
as one entry on an initially empty list. -/
theorem server_list_no_duplicates_witness :
    serverListUnique (soapSSDPquery [] [⟨1, 2, [], [], []⟩, ⟨1, 2, [], [], []⟩]) ∧
    (∃ added, soapSSDPquery [] [⟨1, 2, [], [], []⟩, ⟨1, 2, [], [], []⟩] = [] ++ added) ∧
    clearServerList = ([] : List soapServer_t) :=
  server_list_no_duplicates [] [⟨1, 2, [], [], []⟩, ⟨1, 2, [], [], []⟩] (List.Pairwise.nil)

/-- Claim C8: at most one transport data connection is open in every
reachable session state, and every operation that opens a new connection
first emits a close of the prior open data connection before the open of
the new one. -/
theorem single_connection_invariant :
    (∀ s, sessionReachable s → s.openConnections.length ≤ 1) ∧
    (∀ s, m_clientDataConOpen s = true → ∀ id,
       (openDataConnection s id).2 =
         [connEvent.closeEvent, connEvent.openEvent id]) := by
  constructor
  · intro s h
    induction h with
    | init => decide
    | step _ hstep _ =>
        cases hstep with
        | doGet id => simp [openDataConnection, closeDataConnection_empties]
        | doPost id => simp [openDataConnection, closeDataConnection_empties]
        | doDownload id => simp [openDataConnection, closeDataConnection_empties]
        | doReadStop => simp [closeDataConnection_empties]
  · intro s h id
    unfold openDataConnection closeDataConnection
    rw [if_pos h]
    rfl

/-- Claim C8 witness: the initial state is reachable and within bounds; a
state with an open connection closes it before opening a new one. -/
theorem single_connection_invariant_witness :
    initialSession.openConnections.length ≤ 1 ∧
    (openDataConnection ⟨[5]⟩ 7).2 =
      [connEvent.closeEvent, connEvent.openEvent 7] :=
  ⟨single_connection_invariant.1 initialSession sessionReachable.init,
   single_connection_invariant.2 ⟨[5]⟩ (by decide) 7⟩

/-- Claim C1: pulling a valid chunked body through the streaming decoder
with entity decoding disabled yields exactly the concatenation of the
chunk payloads — the byte sequence the reference de-chunker produces
from the unchunked equivalent body — with end-of-stream after the
terminal zero-size chunk; in particular the body
`"5\r\nhello\r\n0\r\n\r\n"` decodes to the five bytes `"hello"` then
end-of-stream. -/
theorem chunked_decode_round_trip :
    (∀ chunks : List (List Char), (∀ c ∈ chunks, c ≠ []) →
       soapReadXMLStream true false (encodeChunked chunks) =
         some (referenceDechunk chunks) ∧
       soapReadXMLStream false false (referenceDechunk chunks) =
         some (referenceDechunk chunks)) ∧
    soapReadXMLStream true false (("5\r\nhello\r\n0\r\n\r\n").toList) =
      some (("hello").toList) := by
  constructor
  · intro chunks hne
    constructor
    · simp [soapReadXMLStream, dechunk_encodeChunked chunks hne, referenceDechunk]
    · simp [soapReadXMLStream]
  · decide

/-- Claim C1 witness: the single-chunk body holding `"hello"`. -/
theorem chunked_decode_round_trip_witness :
    soapReadXMLStream true false (encodeChunked [("hello").toList]) =
      some (referenceDechunk [("hello").toList]) :=
  (chunked_decode_round_trip.1 [("hello").toList] (by decide)).1

/-- Claim C9: download reads deliver the raw content bytes — with entity
decoding disabled the decoder is the identity on the (de-chunked) wire
content, so sequences containing `&amp;` and the other entity spellings
are delivered byte-identical and never entity-replaced, even though the
enabled entity decoder would have rewritten them. -/
theorem download_delivers_raw_bytes :
    (∀ wire, soapReadXMLStream false false wire = some wire) ∧
    (∀ chunks : List (List Char), (∀ c ∈ chunks, c ≠ []) →
       soapReadXMLStream true false (encodeChunked chunks) =
         some (referenceDechunk chunks)) ∧
    soapReadXMLStream false false (("a&amp;b").toList) =
      some (("a&amp;b").toList) ∧
    soapDecodeEntities (("a&amp;b").toList) = ("a&b").toList := by
  refine ⟨?_, ?_, by decide, by decide⟩
  · intro wire
    simp [soapReadXMLStream]
  · intro chunks hne
    simp [soapReadXMLStream, dechunk_encodeChunked chunks hne, referenceDechunk]

/-- Claim C9 witness: a two-chunk download containing an `&amp;`
spelling arrives raw. -/
theorem download_delivers_raw_bytes_witness :
    soapReadXMLStream true false (encodeChunked [("a&amp;").toList, ("b").toList]) =
      some (referenceDechunk [("a&amp;").toList, ("b").toList]) :=
  download_delivers_raw_bytes.2.1 [("a&amp;").toList, ("b").toList] (by decide)

/-- Claim C7: reading an HTTP response header succeeds exactly when the
status line is `HTTP/1.1 200 OK`; any other status line reports failure;
the `Content-Length:` key is matched case-insensitively; and
`Transfer-Encoding: chunked` is recognized. -/
theorem http_header_parsing :
    (∀ lines, (soapReadHttpHeader lines).statusOk = true ↔
       lines.head? = some HTTP_HEADER_200_OK) ∧
    (∀ status rest, status ≠ HTTP_HEADER_200_OK →
       (soapReadHttpHeader (status :: rest)).statusOk = false) ∧
    (∀ key val rest, key.map lowerChar = HEADER_CONTENT_LENGTH.map lowerChar →
       (soapReadHttpHeader (HTTP_HEADER_200_OK :: ((key ++ val) :: rest))).contentLength =
         some (parseDec val)) ∧
    (∀ lines, HEADER_TRANS_ENC_CHUNKED ∈ lines →
       (soapReadHttpHeader lines).chunked = true) := by
  refine ⟨?_, ?_, ?_, ?_⟩
  · intro lines
    simp [soapReadHttpHeader]
  · intro status rest h
    simp [soapReadHttpHeader, h]
  · intro key val rest hkey
    have hlen : key.length = HEADER_CONTENT_LENGTH.length := by
      have := congrArg List.length hkey
      simpa using this
    have hneg : startsWithCI HEADER_CONTENT_LENGTH HTTP_HEADER_200_OK = false := by
      decide
    have hpos : startsWithCI HEADER_CONTENT_LENGTH (key ++ val) = true := by
      unfold startsWithCI
      rw [← hlen, List.take_left, hkey]
      exact beq_self_eq_true _
    have hfind : (HTTP_HEADER_200_OK :: ((key ++ val) :: rest)).find?
        (fun l => startsWithCI HEADER_CONTENT_LENGTH l) = some (key ++ val) := by
      rw [List.find?_cons_of_neg _ (by simp [hneg]), List.find?_cons_of_pos _ hpos]
    have hdrop : (key ++ val).drop HEADER_CONTENT_LENGTH.length = val := by
      rw [← hlen, List.drop_left]
    simp only [soapReadHttpHeader, hfind, hdrop]
  · intro lines h
    simp only [soapReadHttpHeader, List.any_eq_true]
    exact ⟨HEADER_TRANS_ENC_CHUNKED, h, beq_self_eq_true _⟩

/-- Claim C7 witness: the exact status line succeeds, a 404 status line
fails, an upper-case Content-Length key is still found, chunked transfer
encoding is recognized. -/
theorem http_header_parsing_witness :
    (soapReadHttpHeader [HTTP_HEADER_200_OK]).statusOk = true ∧
    (soapReadHttpHeader (("HTTP/1.1 404 Not Found").toList :: [])).statusOk = false ∧
    (soapReadHttpHeader (HTTP_HEADER_200_OK ::
       ((("CONTENT-LENGTH: ").toList ++ ("123").toList) :: []))).contentLength =
      some (parseDec (("123").toList)) ∧
    (soapReadHttpHeader [HTTP_HEADER_200_OK, HEADER_TRANS_ENC_CHUNKED]).chunked = true :=
  ⟨(http_header_parsing.1 [HTTP_HEADER_200_OK]).mpr rfl,
   http_header_parsing.2.1 (("HTTP/1.1 404 Not Found").toList) [] (by decide),
   http_header_parsing.2.2.1 (("CONTENT-LENGTH: ").toList) (("123").toList) [] (by decide),
   http_header_parsing.2.2.2 [HTTP_HEADER_200_OK, HEADER_TRANS_ENC_CHUNKED] (by simp)⟩

/-- Claim C10: the fixed SOAP body sent by `pause()` opens the action
element as `<u:Pause ...>` but closes it with `</u:Play>`, so it is not
tag-well-formed XML, unlike the bodies sent by `play()` and `stop()`
whose opening and closing tags match. -/
theorem pause_body_tag_mismatch :
    actionOpenName SOAP_PAUSE = some (("Pause").toList) ∧
    actionCloseName SOAP_PAUSE = some (("Play").toList) ∧
    actionTagsMatch (transportActionBody transportAction_et.PAUSE) = false ∧
    actionTagsMatch (transportActionBody transportAction_et.PLAY) = true ∧
    actionTagsMatch (transportActionBody transportAction_et.STOP) = true := by
  refine ⟨by decide, by decide, by decide, by decide, by decide⟩

end SoapESP32
